import Mathlib

/-!
Verification of `op-monitorism/faultproof_withdrawals/runbooks/automated/lib/web3.py`
(class `Web3Utility`), shallowly embedded in Lean 4.

The external chain-access collaborators (the L1 geth RPC node, the contract call
bindings, the op-node HTTP endpoint) are modelled as oracles: total functions
returning `Option`/`Except`, where `none`/`.error` stands for a raised Python
exception at the corresponding call site.  The `while` loops of the source are
embedded with an explicit fuel parameter; a result of `none` at every fuel means
the loop never exits.  Machine integers are `Nat`/`Int` (Python ints are
unbounded, so no wrap-around modelling is needed).
-/

/-- An event log entry returned by `contract.events.WithdrawalProvenExtension1().get_logs`.
The fields other than `blockNumber` are opaque for the scanner; `payload`
stands for the rest of the decoded log so distinct logs stay distinguishable. -/
structure L1Log where
  blockNumber : Nat
  payload : Nat
deriving DecidableEq

/-- The read-only L1 chain collaborator (`self.l1_geth` plus the
`OptimismPortal2` event-log query binding).
`block_number` is `eth.block_number` (the current head);
`block_ts` gives each existing block's header timestamp;
`get_logs fromB toB` is the ranged `WithdrawalProvenExtension1` log query,
with `none` standing for a raised RPC/transport exception. -/
structure L1Geth where
  block_number : Nat
  block_ts : Nat → Nat
  get_logs : Nat → Nat → Option (List L1Log)

/-- Embedding of `eth.get_block(blockNumber)["timestamp"]`: the fetch succeeds
exactly on blocks that exist, i.e. block numbers in `[0, head]` (a negative or
not-yet-mined block number makes the RPC call raise, modelled as `none`). -/
def get_block (c : L1Geth) (i : Int) : Option Nat :=
  if 0 ≤ i ∧ i ≤ (c.block_number : Int) then some (c.block_ts i.toNat) else none

/-- The dictionary built by `Web3Utility.get_block_timestamp` (web3.py lines
103–123), without the `formatted_timestamp` field: that field is a pure
`strftime` rendering of `timestamp` and carries no additional information. -/
structure TimestampInfo where
  blockNumber : Nat
  timestamp : Nat
deriving DecidableEq

/-- Embedding of `Web3Utility.get_block_timestamp` (web3.py lines 103–123):
fetch the block, read its timestamp; `none` models the `get_block` call raising. -/
def get_block_timestamp (c : L1Geth) (blockNumber : Nat) : Option TimestampInfo :=
  (get_block c (blockNumber : Int)).map (fun ts => ⟨blockNumber, ts⟩)

/-- Result of one call to `find_latest_withdrawal_event`:
`found log tsi` is the returned dictionary with keys `log` and `timestamp`;
`notFound` is the final `return None` of the source. -/
inductive ScanResult where
  | found (log : L1Log) (timestamp : TimestampInfo) : ScanResult
  | notFound : ScanResult
deriving DecidableEq

/-- The `while current_max_block >= starting_block_search` loop of
`Web3Utility.find_latest_withdrawal_event` (web3.py lines 74–90), with fuel.
Per iteration: `from_block = max(0, current_max_block - batch_size)` (truncated
`Nat` subtraction), then inside the `try`: fetch the logs of
`[from_block, current_max_block]`; if the fetch raises, or the log list is
empty, or the subsequent `get_block_timestamp` call raises (the `except` branch
catches both calls), fall through to `current_max_block = from_block` and keep
scanning older windows; otherwise return the last log of the window together
with its timestamp dictionary.  The outer `none` means the fuel ran out before
the loop returned. -/
def scan_loop (c : L1Geth) (starting_block_search batch_size : Nat) :
    Nat → Nat → Option ScanResult
  | 0, _ => none
  | fuel+1, current_max_block =>
    if starting_block_search ≤ current_max_block then
      let from_block := current_max_block - batch_size
      let attempt : Option ScanResult :=
        match c.get_logs from_block current_max_block with
        | none => none
        | some logs =>
          match logs.getLast? with
          | none => none
          | some last_log =>
            match get_block_timestamp c last_log.blockNumber with
            | none => none
            | some tsi => some (.found last_log tsi)
      match attempt with
      | some r => some r
      | none => scan_loop c starting_block_search batch_size fuel from_block
    else
      some .notFound

/-- Embedding of `Web3Utility.find_latest_withdrawal_event` (web3.py lines
64–90).  The head is read once (`latest_block = self.l1_geth.eth.block_number`),
the starting block is clamped with `max(0, starting_block_search)` (it is a
Python `int`, hence the `Int` parameter), and the batched backward scan runs
from the head.  In the source `batch_size` defaults to `1000`. -/
def find_latest_withdrawal_event (c : L1Geth) (starting_block_search : Int)
    (batch_size : Nat) (fuel : Nat) : Option ScanResult :=
  let latest_block := c.block_number
  scan_loop c (max 0 starting_block_search).toNat batch_size fuel latest_block

/-- Membership of a log's block number in the inclusive window `[fromB, toB]`. -/
def window_pred (fromB toB : Nat) (l : L1Log) : Bool :=
  decide (fromB ≤ l.blockNumber) && decide (l.blockNumber ≤ toB)

/-- An honest chain: the head is `head`, block timestamps are given by `ts`,
and the ranged log query never raises and returns exactly the events of `evs`
whose block number lies in the requested range, in list order.  With `evs`
sorted by block number this is the behaviour the spec assumes of the RPC node
(logs of a range are ordered by block number ascending). -/
def mkHonestChain (evs : List L1Log) (head : Nat) (ts : Nat → Nat) : L1Geth :=
  ⟨head, ts, fun fromB toB => some (evs.filter (window_pred fromB toB))⟩

/-- Outcome of the logarithmic-search loop of `find_block_one_week_ago`
(web3.py lines 144–155): `exact mid` is the early `return mid` on an exact
timestamp match; `straddle low high` is the loop exiting with `low > high`;
`err` is a `get_block` call raising. -/
inductive BinSearchOut where
  | exact (mid : Int) : BinSearchOut
  | straddle (low high : Int) : BinSearchOut
  | err : BinSearchOut
deriving DecidableEq

/-- Outcome of a call that either returns a block number or raises. -/
inductive RunOut where
  | ok (b : Int) : RunOut
  | err : RunOut
deriving DecidableEq

/-- The `while low <= high` logarithmic search of `find_block_one_week_ago`
(web3.py lines 144–155), with fuel.  `low` and `high` are Python ints (they can
go negative), `mid = (low + high) // 2` is floor division, which the `Int`
division of this file implements. -/
def bin_search_loop (c : L1Geth) (target_timestamp : Nat) :
    Nat → Int → Int → Option BinSearchOut
  | 0, _, _ => none
  | fuel+1, low, high =>
    if low ≤ high then
      let mid := (low + high) / 2
      match get_block c mid with
      | none => some .err
      | some block_timestamp =>
        if block_timestamp < target_timestamp then
          bin_search_loop c target_timestamp fuel (mid + 1) high
        else if target_timestamp < block_timestamp then
          bin_search_loop c target_timestamp fuel low (mid - 1)
        else
          some (.exact mid)
    else
      some (.straddle low high)

/-- The `while True` fine-tuning loop of `find_block_one_week_ago` (web3.py
lines 159–166), with fuel: fetch the candidate block (raising, `.err`, when the
candidate has gone negative or past the head), return it if its timestamp is at
or before the target, otherwise decrement and retry. -/
def refine_loop (c : L1Geth) (target_timestamp : Nat) : Nat → Int → Option RunOut
  | 0, _ => none
  | fuel+1, closest_block =>
    match get_block c closest_block with
    | none => some .err
    | some block_timestamp =>
      if block_timestamp ≤ target_timestamp then some (.ok closest_block)
      else refine_loop c target_timestamp fuel (closest_block - 1)

/-- Embedding of `Web3Utility.find_block_one_week_ago` (web3.py lines 125–166).
The source computes `target_timestamp = int((datetime.utcnow() - timedelta(weeks=1)).timestamp())`
from the wall clock; the embedding takes that target as a parameter and models
the search it drives: logarithmic search over `[0, latest_block]`, then
`closest_block = low if low < latest_block else high`, then the backward
refinement.  The outer `none` means the fuel ran out inside a loop. -/
def find_block_one_week_ago (c : L1Geth) (target_timestamp : Nat) (fuel : Nat) :
    Option RunOut :=
  let latest_block : Int := (c.block_number : Int)
  match bin_search_loop c target_timestamp fuel 0 latest_block with
  | none => none
  | some .err => some .err
  | some (.exact mid) => some (.ok mid)
  | some (.straddle low high) =>
    let closest_block := if low < latest_block then low else high
    refine_loop c target_timestamp fuel closest_block

/-- The value of one hexadecimal digit character, `none` on a non-hex character. -/
def hexDigitVal (ch : Char) : Option Nat :=
  if '0' ≤ ch ∧ ch ≤ '9' then some (ch.toNat - '0'.toNat)
  else if 'a' ≤ ch ∧ ch ≤ 'f' then some (ch.toNat - 'a'.toNat + 10)
  else if 'A' ≤ ch ∧ ch ≤ 'F' then some (ch.toNat - 'A'.toNat + 10)
  else none

/-- Python `bytes.fromhex` on a character list (for inputs without whitespace,
which is the only form this code base passes): consume two hex digits per byte;
an odd-length tail or any non-hexadecimal character raises `ValueError`,
modelled as `.error`. -/
def bytes_fromhex_chars : List Char → Except String (List Nat)
  | [] => Except.ok []
  | [_] => Except.error "ValueError: non-hexadecimal number found in fromhex() arg"
  | c1 :: c2 :: rest =>
    match hexDigitVal c1, hexDigitVal c2 with
    | some hi, some lo => (bytes_fromhex_chars rest).map (fun bs => (16 * hi + lo) :: bs)
    | _, _ => Except.error "ValueError: non-hexadecimal number found in fromhex() arg"

/-- Python `bytes.fromhex` on a string (web3.py line 172 normalization). -/
def bytes_fromhex (s : String) : Except String (List Nat) :=
  bytes_fromhex_chars s.data

/-- Lowercase hexadecimal digit character for a value below 16. -/
def hexChar (n : Nat) : Char :=
  if n < 10 then Char.ofNat ('0'.toNat + n) else Char.ofNat ('a'.toNat + n - 10)

/-- Python `bytes.hex()`: two lowercase hex digits per byte. -/
def bytes_hex (bs : List Nat) : String :=
  ⟨(bs.map (fun b => [hexChar (b / 16 % 16), hexChar (b % 16)])).flatten⟩

/-- The `withDrawalHash` argument of `get_game_data`, which the source accepts
as either a Python `str` or `bytes` (web3.py lines 170–172). -/
inductive WithdrawalHashArg where
  | str (s : String) : WithdrawalHashArg
  | bytes (b : List Nat) : WithdrawalHashArg

/-- The dictionary returned by `Web3Utility.get_game_data` (web3.py line 186). -/
structure GameData where
  gameProxyAddress : String
  timestamp : Nat
  l2BlockNumber : Nat
  rootClaim : String
  sentMessages : Bool
  optimism_outputAtBlock : Option String
deriving DecidableEq

/-- An HTTP response as seen by `optimism_output_at_block` (web3.py lines
205–210): the status code, the value of `response.json()["result"]["outputRoot"]`
when that access succeeds (`none` models a missing or unparseable field, whose
access raises `KeyError`), and `response.text`. -/
structure HttpResponse where
  status_code : Nat
  result_outputRoot : Option String
  text : String
deriving DecidableEq

/-- Python `hex(blockNumber)` for a non-negative int: `0x` followed by
lowercase hexadecimal digits (web3.py line 193). -/
def block_number_hex (blockNumber : Nat) : String :=
  "0x" ++ String.mk (Nat.toDigits 16 blockNumber)

/-- Embedding of `Web3Utility.optimism_output_at_block` (web3.py lines
189–210).  The op-node endpoint is an oracle `post` keyed by the only varying
part of the fixed JSON-RPC request, the hex-encoded block number parameter.
On status 200 the adapter returns `response.json()["result"]["outputRoot"]`
(raising `KeyError` if the body lacks it); on any other status it raises. -/
def optimism_output_at_block (post : String → HttpResponse) (blockNumber : Nat) :
    Except String String :=
  let response := post (block_number_hex blockNumber)
  if response.status_code = 200 then
    match response.result_outputRoot with
    | some root => Except.ok root
    | none => Except.error "KeyError: outputRoot"
  else
    Except.error ("Error: " ++ toString response.status_code ++ " - " ++ response.text)

/-- The external collaborators of `Web3Utility.get_game_data`:
`provenWithdrawals` is the OptimismPortal2 bridge lookup (step 1);
`get_fault_dispute_game` is the dynamic contract-binding construction of
web3.py lines 57–62 for the game proxy address (step 2), returning an opaque
handle; `l2BlockNumber` and `rootClaim` are the reads on the bound game
contract, keyed by its address (step 3); `sentMessages` is the
L2ToL1MessagePasser membership read (step 4); `post` is the op-node HTTP
endpoint used by `optimism_output_at_block` (step 5).  `.error` models the
corresponding Python call raising. -/
structure GameOracles where
  provenWithdrawals : List Nat → String → Except String (String × Nat)
  get_fault_dispute_game : String → Except String Unit
  l2BlockNumber : String → Except String Nat
  rootClaim : String → Except String (List Nat)
  sentMessages : List Nat → Except String Bool
  post : String → HttpResponse

/-- The input normalization of `get_game_data` (web3.py lines 171–172):
a `str` argument is decoded with `bytes.fromhex`, `bytes` pass through. -/
def normalize_withdrawal_hash (withDrawalHash : WithdrawalHashArg) :
    Except String (List Nat) :=
  match withDrawalHash with
  | .str s => bytes_fromhex s
  | .bytes b => Except.ok b

/-- Embedding of `Web3Utility.get_game_data` (web3.py lines 170–186).
Each step is a separate collaborator call; an exception in the normalization
or in steps 1–4 propagates to the caller (`.error`), while the step-5
`optimism_output_at_block` call sits in a `try`/`except` whose handler sets the
field to `None` (here `Option.toOption`-style: `some` on success, `none` on any
exception).  `rootClaim` is rendered as in the source: `f"0x{rootClaim.hex()}"`. -/
def get_game_data (o : GameOracles) (withDrawalHash : WithdrawalHashArg)
    (proofSubmitter : String) : Except String GameData :=
  match normalize_withdrawal_hash withDrawalHash with
  | .error e => .error e
  | .ok wh =>
    match o.provenWithdrawals wh proofSubmitter with
    | .error e => .error e
    | .ok (gameProxyAddress, timestamp) =>
      match o.get_fault_dispute_game gameProxyAddress with
      | .error e => .error e
      | .ok _game =>
        match o.l2BlockNumber gameProxyAddress with
        | .error e => .error e
        | .ok l2BlockNumber =>
          match o.rootClaim gameProxyAddress with
          | .error e => .error e
          | .ok rootClaim =>
            match o.sentMessages wh with
            | .error e => .error e
            | .ok sentMessages =>
              let optimism_outputAtBlock :=
                match optimism_output_at_block o.post l2BlockNumber with
                | .ok v => some v
                | .error _ => none
              .ok { gameProxyAddress := gameProxyAddress,
                    timestamp := timestamp,
                    l2BlockNumber := l2BlockNumber,
                    rootClaim := "0x" ++ bytes_hex rootClaim,
                    sentMessages := sentMessages,
                    optimism_outputAtBlock := optimism_outputAtBlock }

/-- Forget the best-effort output-root field of a `GameData` record, keeping
the fields produced by steps 1–4. -/
def erase_output (r : GameData) : GameData :=
  { r with optimism_outputAtBlock := none }

/-- The collaborators of `Web3Utility.get_withdrawal_proven_extension_1`:
the receipt fetch (receipts modelled as opaque handles) and the
`WithdrawalProvenExtension1().process_receipt` decoding; `.error` models the
corresponding call raising. -/
structure ReceiptOracles where
  get_transaction_receipt : String → Except String Nat
  process_receipt : Nat → Except String (List L1Log)

/-- Embedding of `Web3Utility.get_withdrawal_proven_extension_1` (web3.py
lines 92–99): both calls sit in a `try` whose handler prints the error and
falls off the function, returning Python `None` (`none` here); on success the
decoded logs are returned. -/
def get_withdrawal_proven_extension_1 (o : ReceiptOracles) (txHash : String) :
    Option (List L1Log) :=
  match o.get_transaction_receipt txHash with
  | .error _ => none
  | .ok txReceipt =>
    match o.process_receipt txReceipt with
    | .error _ => none
    | .ok logs => some logs

/-- A fixed set of well-behaved aggregator collaborators, used to witness the
aggregator theorems on concrete inputs: the bridge maps every key to game
`0xGame1` proven at time `111`; the game reports `l2BlockNumber = 777` and
`rootClaim = 0xaa`; the registry reports membership; the op-node answers
status 200 with output root `0xroot2` for every query. -/
def sampleOracles : GameOracles :=
  ⟨fun _ _ => Except.ok ("0xGame1", 111),
   fun _ => Except.ok (),
   fun _ => Except.ok 777,
   fun _ => Except.ok [170],
   fun _ => Except.ok true,
   fun _ => ⟨200, some "0xroot2", ""⟩⟩

/-! ## Helper lemmas about lists and the honest chain -/

lemma getLast_opt_mem {α : Type} {x : α} : ∀ {l : List α}, l.getLast? = some x → x ∈ l := by
  intro l
  induction l with
  | nil => intro h; simp at h
  | cons a t ih =>
    intro h
    cases t with
    | nil =>
      simp only [List.getLast?_singleton, Option.some.injEq] at h
      simp [h]
    | cons b t2 =>
      rw [List.getLast?_cons_cons] at h
      exact List.mem_cons_of_mem a (ih h)

lemma pairwise_getLast_max {x : L1Log} :
    ∀ {l : List L1Log}, l.Pairwise (fun a b => a.blockNumber ≤ b.blockNumber) →
      l.getLast? = some x → ∀ a ∈ l, a.blockNumber ≤ x.blockNumber := by
  intro l
  induction l with
  | nil => intro _ h; simp at h
  | cons a t ih =>
    intro hp hl m hm
    cases t with
    | nil =>
      simp only [List.getLast?_singleton, Option.some.injEq] at hl
      have hma : m = a := by simpa using hm
      subst hma; subst hl; exact le_refl _
    | cons b t2 =>
      rw [List.getLast?_cons_cons] at hl
      rw [List.pairwise_cons] at hp
      obtain ⟨ha, hp2⟩ := hp
      rcases List.mem_cons.mp hm with rfl | hm2
      · exact ha x (getLast_opt_mem hl)
      · exact ih hp2 hl m hm2

lemma scan_loop_stop (c : L1Geth) (s b f cmb : Nat) (hg : ¬ s ≤ cmb) :
    scan_loop c s b (f+1) cmb = some .notFound := by
  simp only [scan_loop, if_neg hg]

lemma scan_loop_found_window (c : L1Geth) (s b f cmb : Nat) (logs : List L1Log)
    (last_log : L1Log) (tsi : TimestampInfo) (hg : s ≤ cmb)
    (hl : c.get_logs (cmb - b) cmb = some logs)
    (hlast : logs.getLast? = some last_log)
    (hts : get_block_timestamp c last_log.blockNumber = some tsi) :
    scan_loop c s b (f+1) cmb = some (.found last_log tsi) := by
  simp only [scan_loop, if_pos hg, hl, hlast, hts]

lemma scan_loop_continue_empty (c : L1Geth) (s b f cmb : Nat) (logs : List L1Log)
    (hg : s ≤ cmb) (hl : c.get_logs (cmb - b) cmb = some logs)
    (hlast : logs.getLast? = none) :
    scan_loop c s b (f+1) cmb = scan_loop c s b f (cmb - b) := by
  simp only [scan_loop, if_pos hg, hl, hlast]

lemma honest_get_logs (evs : List L1Log) (head : Nat) (ts : Nat → Nat)
    (fromB toB : Nat) :
    (mkHonestChain evs head ts).get_logs fromB toB =
      some (evs.filter (window_pred fromB toB)) := rfl

lemma window_pred_true (fromB toB : Nat) (l : L1Log) :
    window_pred fromB toB l = true ↔ fromB ≤ l.blockNumber ∧ l.blockNumber ≤ toB := by
  simp [window_pred]

lemma get_block_timestamp_honest (evs : List L1Log) (head : Nat) (ts : Nat → Nat)
    (bn : Nat) (h : bn ≤ head) :
    get_block_timestamp (mkHonestChain evs head ts) bn = some ⟨bn, ts bn⟩ := by
  simp only [get_block_timestamp, get_block, mkHonestChain]
  rw [if_pos (by omega : 0 ≤ (bn : Int) ∧ (bn : Int) ≤ ((head : Nat) : Int))]
  have hb : ((bn : Int)).toNat = bn := by omega
  simp [hb]

/-- Core invariant of the backward batched scan over an honest chain with
ascending-sorted events: entered at a window top `cmb` above every event that
is at or below the head, the loop returns the event with the greatest block
number among the events at or below the head, as soon as some matching event
at or above `start` (and at or below the head) exists. -/
lemma scan_loop_finds_max (evs : List L1Log) (head : Nat) (ts : Nat → Nat)
    (hs : evs.Pairwise (fun a b => a.blockNumber ≤ b.blockNumber))
    (start batch : Nat) (hb : 1 ≤ batch) :
    ∀ fuel cmb, cmb + 2 ≤ fuel → cmb ≤ head →
      (∀ e ∈ evs, e.blockNumber ≤ head → e.blockNumber ≤ cmb) →
      (∃ e ∈ evs, start ≤ e.blockNumber ∧ e.blockNumber ≤ head) →
      ∃ r, r ∈ evs ∧
        scan_loop (mkHonestChain evs head ts) start batch fuel cmb =
          some (.found r ⟨r.blockNumber, ts r.blockNumber⟩) ∧
        start ≤ r.blockNumber ∧ r.blockNumber ≤ head ∧
        ∀ e ∈ evs, e.blockNumber ≤ head → e.blockNumber ≤ r.blockNumber := by
  intro fuel
  induction fuel with
  | zero => intro cmb h _ _ _; omega
  | succ f ih =>
    intro cmb hfuel hch hinv hex
    obtain ⟨e0, he0, he0s, he0h⟩ := hex
    have hguard : start ≤ cmb := le_trans he0s (hinv e0 he0 he0h)
    cases hlast : (evs.filter (window_pred (cmb - batch) cmb)).getLast? with
    | none =>
      have hnil : evs.filter (window_pred (cmb - batch) cmb) = [] :=
        List.getLast?_eq_none_iff.mp hlast
      have hnowin : ∀ e ∈ evs, ¬ (cmb - batch ≤ e.blockNumber ∧ e.blockNumber ≤ cmb) := by
        intro e he hcon
        have h1 := List.filter_eq_nil_iff.mp hnil e he
        rw [window_pred_true] at h1
        exact h1 hcon
      have hcmb_pos : 1 ≤ cmb := by
        rcases Nat.eq_zero_or_pos cmb with h0 | h0
        · exfalso
          have h1 := hinv e0 he0 he0h
          exact hnowin e0 he0 (by omega)
        · exact h0
      rw [scan_loop_continue_empty (mkHonestChain evs head ts) start batch f cmb _
            hguard (honest_get_logs evs head ts (cmb - batch) cmb) hlast]
      have hinv2 : ∀ e ∈ evs, e.blockNumber ≤ head → e.blockNumber ≤ cmb - batch := by
        intro e he heh
        have h1 := hinv e he heh
        have h2 := hnowin e he
        omega
      exact ih (cmb - batch) (by omega) (by omega) hinv2 ⟨e0, he0, he0s, he0h⟩
    | some r =>
      have hrfil : r ∈ evs.filter (window_pred (cmb - batch) cmb) := getLast_opt_mem hlast
      have hrmem : r ∈ evs := (List.mem_filter.mp hrfil).1
      have hrwin : cmb - batch ≤ r.blockNumber ∧ r.blockNumber ≤ cmb :=
        (window_pred_true _ _ _).mp (List.mem_filter.mp hrfil).2
      have hrh : r.blockNumber ≤ head := le_trans hrwin.2 hch
      have hmax : ∀ e ∈ evs, e.blockNumber ≤ head → e.blockNumber ≤ r.blockNumber := by
        intro e he heh
        rcases le_or_lt (cmb - batch) e.blockNumber with hw | hw
        · have hew : e ∈ evs.filter (window_pred (cmb - batch) cmb) :=
            List.mem_filter.mpr ⟨he, (window_pred_true _ _ _).mpr ⟨hw, hinv e he heh⟩⟩
          exact pairwise_getLast_max (hs.filter _) hlast e hew
        · omega
      refine ⟨r, hrmem, ?_, le_trans he0s (hmax e0 he0 he0h), hrh, hmax⟩
      exact scan_loop_found_window (mkHonestChain evs head ts) start batch f cmb _ r _
        hguard (honest_get_logs evs head ts (cmb - batch) cmb) hlast
        (get_block_timestamp_honest evs head ts r.blockNumber hrh)

/-- C1: over every honest chain whose ascending event list has a matching
event in `[startingBlock, head]`, `find_latest_withdrawal_event` returns a
found event that is the one with the greatest block number among the events at
or below the scan-start head — i.e. the greatest-block event of the newest
batch window containing any match — without scanning older windows past it. -/
theorem find_latest_withdrawal_event_returns_latest
    (evs : List L1Log) (head : Nat) (ts : Nat → Nat) (start batch fuel : Nat)
    (hs : evs.Pairwise (fun a b => a.blockNumber ≤ b.blockNumber))
    (hb : 1 ≤ batch)
    (hex : ∃ e ∈ evs, start ≤ e.blockNumber ∧ e.blockNumber ≤ head)
    (hfuel : head + 2 ≤ fuel) :
    ∃ r, r ∈ evs ∧
      find_latest_withdrawal_event (mkHonestChain evs head ts) (start : Int) batch fuel =
        some (.found r ⟨r.blockNumber, ts r.blockNumber⟩) ∧
      start ≤ r.blockNumber ∧ r.blockNumber ≤ head ∧
      ∀ e ∈ evs, e.blockNumber ≤ head → e.blockNumber ≤ r.blockNumber := by
  have hclamp : (max 0 (start : Int)).toNat = start := by omega
  unfold find_latest_withdrawal_event
  rw [hclamp]
  exact scan_loop_finds_max evs head ts hs start batch hb fuel head hfuel (le_refl head)
    (fun e _ heh => heh) hex

/-- Witness for C1 at the spec's concrete scenario: matching events at blocks
100, 5000 and 9999, head 10000, `batchSize = 1000`, `startingBlock = 0` — the
scan returns the event at block 9999. -/
theorem find_latest_withdrawal_event_returns_latest_witness :
    (∃ r, r ∈ ([⟨100, 0⟩, ⟨5000, 1⟩, ⟨9999, 2⟩] : List L1Log) ∧
      find_latest_withdrawal_event
          (mkHonestChain [⟨100, 0⟩, ⟨5000, 1⟩, ⟨9999, 2⟩] 10000 (fun n => n))
          ((0 : Nat) : Int) 1000 10002 =
        some (.found r ⟨r.blockNumber, r.blockNumber⟩) ∧
      0 ≤ r.blockNumber ∧ r.blockNumber ≤ 10000 ∧
      ∀ e ∈ ([⟨100, 0⟩, ⟨5000, 1⟩, ⟨9999, 2⟩] : List L1Log),
        e.blockNumber ≤ 10000 → e.blockNumber ≤ r.blockNumber) ∧
    find_latest_withdrawal_event
        (mkHonestChain [⟨100, 0⟩, ⟨5000, 1⟩, ⟨9999, 2⟩] 10000 (fun n => n))
        ((0 : Nat) : Int) 1000 10002 =
      some (.found ⟨9999, 2⟩ ⟨9999, 9999⟩) :=
  ⟨find_latest_withdrawal_event_returns_latest
      [⟨100, 0⟩, ⟨5000, 1⟩, ⟨9999, 2⟩] 10000 (fun n => n) 0 1000 10002
      (by decide) (by decide) ⟨⟨9999, 2⟩, by decide⟩ (by decide),
   by decide⟩

/-- At any fuel, a `found` result of the scan loop over an honest chain lies in
`[startingBlock - batchSize, head]` (truncated subtraction): every scanned
window has its top at or below the head and at or above `startingBlock`, and
its bottom `batchSize` below its top. -/
lemma scan_loop_found_bounds (evs : List L1Log) (head : Nat) (ts : Nat → Nat)
    (start batch : Nat) :
    ∀ fuel cmb r tsi, cmb ≤ head →
      scan_loop (mkHonestChain evs head ts) start batch fuel cmb =
        some (.found r tsi) →
      start - batch ≤ r.blockNumber ∧ r.blockNumber ≤ head := by
  intro fuel
  induction fuel with
  | zero => intro cmb r tsi _ h; simp [scan_loop] at h
  | succ f ih =>
    intro cmb r tsi hch h
    by_cases hg : start ≤ cmb
    · cases hlast : (evs.filter (window_pred (cmb - batch) cmb)).getLast? with
      | none =>
        rw [scan_loop_continue_empty (mkHonestChain evs head ts) start batch f cmb _
              hg (honest_get_logs evs head ts (cmb - batch) cmb) hlast] at h
        exact ih (cmb - batch) r tsi (by omega) h
      | some last_log =>
        have hmem := getLast_opt_mem hlast
        have hwin : cmb - batch ≤ last_log.blockNumber ∧ last_log.blockNumber ≤ cmb :=
          (window_pred_true _ _ _).mp (List.mem_filter.mp hmem).2
        have hlh : last_log.blockNumber ≤ head := le_trans hwin.2 hch
        rw [scan_loop_found_window (mkHonestChain evs head ts) start batch f cmb _
              last_log _ hg (honest_get_logs evs head ts (cmb - batch) cmb) hlast
              (get_block_timestamp_honest evs head ts last_log.blockNumber hlh)] at h
        simp only [Option.some.injEq, ScanResult.found.injEq] at h
        obtain ⟨hr, -⟩ := h
        subst hr
        omega
    · rw [scan_loop_stop (mkHonestChain evs head ts) start batch f cmb hg] at h
      simp at h

/-- When every event lies more than a batch below `startingBlock` (which in
particular exceeds the batch size), every scanned window is empty and the scan
loop reaches `notFound`. -/
lemma scan_loop_all_below (evs : List L1Log) (head : Nat) (ts : Nat → Nat)
    (start batch : Nat) (hb : 1 ≤ batch)
    (hm : ∀ e ∈ evs, e.blockNumber + batch < start) (hbs : batch < start) :
    ∀ fuel cmb, cmb + 2 ≤ fuel →
      scan_loop (mkHonestChain evs head ts) start batch fuel cmb = some .notFound := by
  intro fuel
  induction fuel with
  | zero => intro cmb h; omega
  | succ f ih =>
    intro cmb hfuel
    by_cases hg : start ≤ cmb
    · have hnil : evs.filter (window_pred (cmb - batch) cmb) = [] := by
        rw [List.filter_eq_nil_iff]
        intro e he
        rw [window_pred_true]
        have := hm e he
        omega
      rw [scan_loop_continue_empty (mkHonestChain evs head ts) start batch f cmb _
            hg (honest_get_logs evs head ts (cmb - batch) cmb) (by rw [hnil]; rfl)]
      exact ih (cmb - batch) (by omega)
    · exact scan_loop_stop (mkHonestChain evs head ts) start batch f cmb hg

/-- Counterexample to C3 as stated: on the honest chain with head 1000 and one
matching event at block 100, scanning with `startingBlock = 500` and
`batchSize = 1000` returns the event at block 100 — its block number is below
the configured floor, and the scan does not return not-found even though the
highest matching event's block (100) is below `startingBlock` (500): the final
window `[0, 1000]` straddles the floor. -/
theorem find_latest_event_below_floor_counterexample :
    find_latest_withdrawal_event (mkHonestChain [⟨100, 0⟩] 1000 (fun n => n)) 500 1000 3 =
      some (.found ⟨100, 0⟩ ⟨100, 100⟩) ∧
    (100 : Nat) < 500 ∧
    (∀ e ∈ ([⟨100, 0⟩] : List L1Log), e.blockNumber < 500) ∧
    find_latest_withdrawal_event (mkHonestChain [⟨100, 0⟩] 1000 (fun n => n)) 500 1000 3 ≠
      some .notFound := by
  refine ⟨by decide, by decide, ?_, by decide⟩
  intro e he
  have h1 : e = ⟨100, 0⟩ := by simpa using he
  subst h1
  decide

/-- C3 amended: a returned event's block number is at most the head observed
at scan start, and at least `startingBlock - batchSize` (not `startingBlock`:
the final window may straddle the floor and an in-window event below the floor
is returned, as the counterexample shows); not-found is guaranteed only when
every matching event is more than one batch below `startingBlock`. -/
theorem find_latest_event_bounds_amended
    (evs : List L1Log) (head : Nat) (ts : Nat → Nat) (start batch fuel : Nat)
    (hb : 1 ≤ batch) :
    (∀ r tsi,
      find_latest_withdrawal_event (mkHonestChain evs head ts) (start : Int) batch fuel =
        some (.found r tsi) →
      start - batch ≤ r.blockNumber ∧ r.blockNumber ≤ head) ∧
    ((∀ e ∈ evs, e.blockNumber + batch < start) → batch < start → head + 2 ≤ fuel →
      find_latest_withdrawal_event (mkHonestChain evs head ts) (start : Int) batch fuel =
        some .notFound) := by
  have hclamp : (max 0 (start : Int)).toNat = start := by omega
  constructor
  · intro r tsi h
    unfold find_latest_withdrawal_event at h
    rw [hclamp] at h
    exact scan_loop_found_bounds evs head ts start batch fuel head r tsi (le_refl head) h
  · intro hm hbs hfuel
    unfold find_latest_withdrawal_event
    rw [hclamp]
    exact scan_loop_all_below evs head ts start batch hb hm hbs fuel head hfuel

/-- Witness for the amended C3, on the counterexample chain (bounds part) and
on a chain whose single event at block 100 lies more than one batch below
`startingBlock = 1200` with `batchSize = 1000` (not-found part). -/
theorem find_latest_event_bounds_amended_witness :
    ((500 : Nat) - 1000 ≤ (100 : Nat) ∧ (100 : Nat) ≤ 1000) ∧
    find_latest_withdrawal_event (mkHonestChain [⟨100, 0⟩] 2000 (fun n => n))
        ((1200 : Nat) : Int) 1000 2002 =
      some .notFound :=
  ⟨(find_latest_event_bounds_amended [⟨100, 0⟩] 1000 (fun n => n) 500 1000 3
      (by decide)).1 ⟨100, 0⟩ ⟨100, 100⟩ (by decide),
   (find_latest_event_bounds_amended [⟨100, 0⟩] 2000 (fun n => n) 1200 1000 2002
      (by decide)).2 (by decide) (by decide) (by decide)⟩

/-- The scan loop over a chain with no matching events and `startingBlock = 0`
never exits: the guard `current_max_block >= 0` always holds and the window
top never leaves 0 once it gets there. -/
lemma scan_loop_empty_none (head : Nat) (ts : Nat → Nat) (batch : Nat) :
    ∀ fuel cmb, scan_loop (mkHonestChain [] head ts) 0 batch fuel cmb = none := by
  intro fuel
  induction fuel with
  | zero => intro cmb; rfl
  | succ f ih =>
    intro cmb
    rw [scan_loop_continue_empty (mkHonestChain [] head ts) 0 batch f cmb []
          (Nat.zero_le cmb) (honest_get_logs [] head ts (cmb - batch) cmb) rfl]
    exact ih (cmb - batch)

/-- C4 failing input: with `startingBlock = 0`, `batchSize = 1000` and a chain
(head 500) carrying no matching event, `find_latest_withdrawal_event` never
returns at any fuel — the source loops forever re-scanning the window `[0, 0]`,
because the window's upper bound, a non-negative block number, can never drop
below a `startingBlock` clamped to 0. -/
theorem find_latest_event_nontermination_at_zero :
    ∀ fuel,
      find_latest_withdrawal_event (mkHonestChain [] 500 (fun _ => 0)) 0 1000 fuel =
        none := by
  intro fuel
  unfold find_latest_withdrawal_event
  exact scan_loop_empty_none 500 (fun _ => 0) 1000 fuel 500

lemma bin_search_step (c : L1Geth) (target : Nat) (f : Nat) (low high : Int)
    (hlh : low ≤ high) (bts : Nat)
    (hgb : get_block c ((low + high) / 2) = some bts) :
    bin_search_loop c target (f+1) low high =
      if bts < target then bin_search_loop c target f ((low + high) / 2 + 1) high
      else if target < bts then bin_search_loop c target f low ((low + high) / 2 - 1)
      else some (.exact ((low + high) / 2)) := by
  simp only [bin_search_loop, if_pos hlh, hgb]

lemma bin_search_stop (c : L1Geth) (target : Nat) (f : Nat) (low high : Int)
    (hlh : ¬ low ≤ high) :
    bin_search_loop c target (f+1) low high = some (.straddle low high) := by
  simp only [bin_search_loop, if_neg hlh]

lemma refine_loop_ret (c : L1Geth) (target : Nat) (f : Nat) (closest : Int) (bts : Nat)
    (hgb : get_block c closest = some bts) (hle : bts ≤ target) :
    refine_loop c target (f+1) closest = some (.ok closest) := by
  simp only [refine_loop, hgb, if_pos hle]

lemma refine_loop_dec (c : L1Geth) (target : Nat) (f : Nat) (closest : Int) (bts : Nat)
    (hgb : get_block c closest = some bts) (hgt : ¬ bts ≤ target) :
    refine_loop c target (f+1) closest = refine_loop c target f (closest - 1) := by
  simp only [refine_loop, hgb, if_neg hgt]

/-- Invariant of the logarithmic search on a chain with non-decreasing
timestamps: entered with every block strictly below `low` strictly earlier than
the target and every existing block strictly above `high` strictly later, the
loop either returns an exact timestamp match, or exits with `low = high + 1`
and the same two properties at the exit straddle. -/
lemma bin_search_loop_spec (c : L1Geth) (target : Nat)
    (hmono : ∀ i j : Nat, i ≤ j → j ≤ c.block_number → c.block_ts i ≤ c.block_ts j) :
    ∀ fuel (low high : Int), 0 ≤ low → low ≤ (c.block_number : Int) + 1 →
      high ≤ (c.block_number : Int) → low ≤ high + 1 →
      (∀ i : Int, 0 ≤ i → i < low → c.block_ts i.toNat < target) →
      (∀ i : Int, high < i → i ≤ (c.block_number : Int) → target < c.block_ts i.toNat) →
      (high + 1 - low).toNat + 1 ≤ fuel →
      (∃ m : Int, bin_search_loop c target fuel low high = some (.exact m) ∧
        0 ≤ m ∧ m ≤ (c.block_number : Int) ∧ c.block_ts m.toNat = target) ∨
      (∃ lo : Int, bin_search_loop c target fuel low high = some (.straddle lo (lo - 1)) ∧
        0 ≤ lo ∧ lo ≤ (c.block_number : Int) + 1 ∧
        (∀ i : Int, 0 ≤ i → i < lo → c.block_ts i.toNat < target) ∧
        (∀ i : Int, lo - 1 < i → i ≤ (c.block_number : Int) → target < c.block_ts i.toNat)) := by
  intro fuel
  induction fuel with
  | zero => intro low high _ _ _ _ _ _ hf; omega
  | succ f ih =>
    intro low high h0 h1 h2 h3 hlow hhigh hf
    by_cases hlh : low ≤ high
    · have hmb : low ≤ (low + high) / 2 ∧ (low + high) / 2 ≤ high := by omega
      have hm0 : 0 ≤ (low + high) / 2 := by omega
      have hmN : (low + high) / 2 ≤ (c.block_number : Int) := by omega
      have hgb : get_block c ((low + high) / 2) =
          some (c.block_ts ((low + high) / 2).toNat) := by
        unfold get_block
        rw [if_pos ⟨hm0, hmN⟩]
      rw [bin_search_step c target f low high hlh _ hgb]
      by_cases hlt : c.block_ts ((low + high) / 2).toNat < target
      · rw [if_pos hlt]
        refine ih ((low + high) / 2 + 1) high (by omega) (by omega) h2 (by omega) ?_ hhigh
          (by omega)
        intro i hi0 him
        rcases lt_or_le i low with hc | hc
        · exact hlow i hi0 hc
        · have hle : c.block_ts i.toNat ≤ c.block_ts ((low + high) / 2).toNat :=
            hmono i.toNat ((low + high) / 2).toNat (by omega) (by omega)
          omega
      · rw [if_neg hlt]
        by_cases hgt : target < c.block_ts ((low + high) / 2).toNat
        · rw [if_pos hgt]
          refine ih low ((low + high) / 2 - 1) h0 h1 (by omega) (by omega) hlow ?_ (by omega)
          intro i him hiN
          rcases lt_or_le high i with hc | hc
          · exact hhigh i hc hiN
          · have hle : c.block_ts ((low + high) / 2).toNat ≤ c.block_ts i.toNat :=
              hmono ((low + high) / 2).toNat i.toNat (by omega) (by omega)
            omega
        · rw [if_neg hgt]
          exact Or.inl ⟨(low + high) / 2, rfl, hm0, hmN, by omega⟩
    · right
      refine ⟨low, ?_, h0, h1, hlow, ?_⟩
      · rw [bin_search_stop c target f low high hlh]
        have hhl : high = low - 1 := by omega
        rw [hhl]
      · intro i him hiN
        exact hhigh i (by omega) hiN

/-- C2 amended: on a chain with non-decreasing timestamps whose genesis
timestamp does not exceed the target, the locator returns a block at or below
the head whose timestamp never exceeds the target; when no existing block's
timestamp equals the target exactly, the returned block is moreover the
greatest block whose timestamp is at or before the target (on a timestamp tie
with the target, the exact-match early return may yield a smaller tied block;
when the target precedes the genesis timestamp the call raises — see the
counterexample — rather than returning block 0). -/
theorem find_block_le_target_and_greatest (c : L1Geth) (target fuel : Nat)
    (hmono : ∀ i j : Nat, i ≤ j → j ≤ c.block_number → c.block_ts i ≤ c.block_ts j)
    (hgen : c.block_ts 0 ≤ target)
    (hfuel : c.block_number + 2 ≤ fuel) :
    ∃ b : Nat, find_block_one_week_ago c target fuel = some (.ok (b : Int)) ∧
      b ≤ c.block_number ∧ c.block_ts b ≤ target ∧
      ((∀ i : Nat, i ≤ c.block_number → c.block_ts i ≠ target) →
        ∀ j : Nat, j ≤ c.block_number → c.block_ts j ≤ target → j ≤ b) := by
  have hspec := bin_search_loop_spec c target hmono fuel 0 (c.block_number : Int)
    (le_refl 0) (by omega) (le_refl _) (by omega)
    (fun i hi0 hi => absurd hi (by omega))
    (fun i hi hiN => absurd hiN (not_le.mpr hi))
    (by omega)
  rcases hspec with ⟨m, heq, hm0, hmN, hts⟩ | ⟨lo, heq, hlo0, hloN1, hlow, hhigh⟩
  · have hrun : find_block_one_week_ago c target fuel = some (.ok m) := by
      simp only [find_block_one_week_ago, heq]
    have hcast : ((m.toNat : Nat) : Int) = m := by omega
    refine ⟨m.toNat, by rw [hrun, hcast], by omega, le_of_eq hts, ?_⟩
    intro hnotie _ _ _
    exact absurd hts (hnotie m.toNat (by omega))
  · have hhi0 : 0 ≤ lo - 1 := by
      by_contra hc
      push_neg at hc
      have hlt0 := hhigh 0 (by omega) (by omega)
      have h00 : ((0 : Int)).toNat = 0 := rfl
      rw [h00] at hlt0
      omega
    have hgb2 : get_block c (lo - 1) = some (c.block_ts (lo - 1).toNat) := by
      unfold get_block
      rw [if_pos ⟨hhi0, by omega⟩]
    have hts2 : c.block_ts (lo - 1).toNat ≤ target :=
      le_of_lt (hlow (lo - 1) hhi0 (by omega))
    have hrun : find_block_one_week_ago c target fuel = some (.ok (lo - 1)) := by
      simp only [find_block_one_week_ago, heq]
      by_cases hc : lo < (c.block_number : Int)
      · rw [if_pos hc]
        have hgb1 : get_block c lo = some (c.block_ts lo.toNat) := by
          unfold get_block
          rw [if_pos ⟨by omega, by omega⟩]
        have hlt1 : target < c.block_ts lo.toNat := hhigh lo (by omega) (by omega)
        obtain ⟨f2, rfl⟩ : ∃ f2, fuel = f2 + 2 := ⟨fuel - 2, by omega⟩
        rw [refine_loop_dec c target (f2 + 1) lo _ hgb1 (by omega)]
        exact refine_loop_ret c target f2 (lo - 1) _ hgb2 hts2
      · rw [if_neg hc]
        obtain ⟨f1, rfl⟩ : ∃ f1, fuel = f1 + 1 := ⟨fuel - 1, by omega⟩
        exact refine_loop_ret c target f1 (lo - 1) _ hgb2 hts2
    have hcast : (((lo - 1).toNat : Nat) : Int) = lo - 1 := by omega
    refine ⟨(lo - 1).toNat, by rw [hrun, hcast], by omega, hts2, ?_⟩
    intro _ j hj hjle
    by_contra hgt
    push_neg at hgt
    have hj2 := hhigh (j : Int) (by omega) (by omega)
    have hjj : (((j : Nat) : Int)).toNat = j := by omega
    rw [hjj] at hj2
    omega

/-- A chain with a timestamp tie at the target: head 3, timestamps 5, 5, 5, 9.
The unique block straddling target 5 is block 2, but the exact-match early
return of the logarithmic search yields block 1. -/
def tieChain : L1Geth := ⟨3, fun n => if n ≤ 2 then 5 else 9, fun _ _ => some []⟩

/-- A chain whose genesis timestamp (10) is after the target 5: head 1,
timestamps 10, 20.  The refinement loop decrements past block 0 and the
`get_block(-1)` fetch raises. -/
def preGenesisChain : L1Geth := ⟨1, fun n => if n = 0 then 10 else 20, fun _ _ => some []⟩

/-- Counterexample to C2 as stated: (a) on `tieChain` with target 5 the code
returns block 1 even though block 2 is the unique block `b ≤ head` with
`timestamp(b) ≤ 5 < timestamp(b+1)` — so the returned block is not that block;
(b) on `preGenesisChain` with target 5 (preceding the genesis timestamp 10)
the code raises instead of returning block 0. -/
theorem find_block_tie_and_genesis_counterexample :
    (find_block_one_week_ago tieChain 5 10 = some (.ok 1) ∧
      tieChain.block_ts 2 ≤ 5 ∧ 5 < tieChain.block_ts 3 ∧ ((1 : Int) ≠ 2) ∧
      (∀ i : Nat, i ≤ tieChain.block_number → tieChain.block_ts i ≤ 5 → i ≤ 2)) ∧
    (5 < preGenesisChain.block_ts 0 ∧
      find_block_one_week_ago preGenesisChain 5 10 = some .err) := by
  constructor
  · refine ⟨by decide, by decide, by decide, by decide, ?_⟩
    intro i hi hts
    have hi3 : i ≤ 3 := hi
    revert hts
    interval_cases i <;> decide
  · exact ⟨by decide, by decide⟩

/-- Witness for the amended C2: head 3 with timestamps 0, 2, 4, 6 and target
5 — the locator returns block 2, the greatest block with timestamp at most 5. -/
theorem find_block_le_target_and_greatest_witness :
    (∃ b : Nat, find_block_one_week_ago ⟨3, fun n => 2 * n, fun _ _ => some []⟩ 5 5 =
        some (.ok (b : Int)) ∧
      b ≤ 3 ∧ 2 * b ≤ 5 ∧
      ((∀ i : Nat, i ≤ 3 → 2 * i ≠ 5) → ∀ j : Nat, j ≤ 3 → 2 * j ≤ 5 → j ≤ b)) ∧
    find_block_one_week_ago ⟨3, fun n => 2 * n, fun _ _ => some []⟩ 5 5 = some (.ok 2) :=
  ⟨find_block_le_target_and_greatest ⟨3, fun n => 2 * n, fun _ _ => some []⟩ 5 5
      (fun i j hij _ => by show 2 * i ≤ 2 * j; omega) (by decide) (by decide),
   by decide⟩

/-- C5: `get_game_data` raises exactly when one of steps 1–4 raises — the
bridge `provenWithdrawals` lookup, the game-binding construction, the
`l2BlockNumber`/`rootClaim` reads, the `sentMessages` read — each propagated
unchanged and unretried; and when steps 1–4 all succeed the call returns
(never raises), with every field populated from those steps and the output
root field equal to `some`/`none` according to the step-5 adapter call's
success or failure alone. -/
theorem get_game_data_error_propagation (o : GameOracles) (wh : List Nat) (p : String) :
    (∀ e, o.provenWithdrawals wh p = .error e →
      get_game_data o (.bytes wh) p = .error e) ∧
    (∀ g t e, o.provenWithdrawals wh p = .ok (g, t) →
      o.get_fault_dispute_game g = .error e →
      get_game_data o (.bytes wh) p = .error e) ∧
    (∀ g t e, o.provenWithdrawals wh p = .ok (g, t) →
      o.get_fault_dispute_game g = .ok () →
      o.l2BlockNumber g = .error e →
      get_game_data o (.bytes wh) p = .error e) ∧
    (∀ g t n e, o.provenWithdrawals wh p = .ok (g, t) →
      o.get_fault_dispute_game g = .ok () →
      o.l2BlockNumber g = .ok n →
      o.rootClaim g = .error e →
      get_game_data o (.bytes wh) p = .error e) ∧
    (∀ g t n rc e, o.provenWithdrawals wh p = .ok (g, t) →
      o.get_fault_dispute_game g = .ok () →
      o.l2BlockNumber g = .ok n →
      o.rootClaim g = .ok rc →
      o.sentMessages wh = .error e →
      get_game_data o (.bytes wh) p = .error e) ∧
    (∀ g t n rc b, o.provenWithdrawals wh p = .ok (g, t) →
      o.get_fault_dispute_game g = .ok () →
      o.l2BlockNumber g = .ok n →
      o.rootClaim g = .ok rc →
      o.sentMessages wh = .ok b →
      get_game_data o (.bytes wh) p =
        .ok ⟨g, t, n, "0x" ++ bytes_hex rc, b,
             (optimism_output_at_block o.post n).toOption⟩) := by
  refine ⟨?_, ?_, ?_, ?_, ?_, ?_⟩
  · intro e h1
    simp only [get_game_data, normalize_withdrawal_hash, h1]
  · intro g t e h1 h2
    simp only [get_game_data, normalize_withdrawal_hash, h1, h2]
  · intro g t e h1 h2 h3
    simp only [get_game_data, normalize_withdrawal_hash, h1, h2, h3]
  · intro g t n e h1 h2 h3 h4
    simp only [get_game_data, normalize_withdrawal_hash, h1, h2, h3, h4]
  · intro g t n rc e h1 h2 h3 h4 h5
    simp only [get_game_data, normalize_withdrawal_hash, h1, h2, h3, h4, h5]
  · intro g t n rc b h1 h2 h3 h4 h5
    simp only [get_game_data, normalize_withdrawal_hash, h1, h2, h3, h4, h5]
    cases h6 : optimism_output_at_block o.post n <;> simp [Except.toOption, h6]

/-- Witness for C5: with `sampleOracles` every step succeeds and the aggregate
carries game `0xGame1`, proven-at time 111, L2 block 777, root claim `0xaa`,
membership `true` and output root `0xroot2`. -/
theorem get_game_data_error_propagation_witness :
    get_game_data sampleOracles (.bytes [171]) "0xProver1" =
      .ok ⟨"0xGame1", 111, 777, "0xaa", true, some "0xroot2"⟩ :=
  ((get_game_data_error_propagation sampleOracles [171] "0xProver1").2.2.2.2.2
    "0xGame1" 111 777 [170] true rfl rfl rfl rfl rfl).trans
    (congrArg Except.ok (by decide))

/-- C6: a hex-string withdrawal hash and the raw bytes it decodes to give
identical `get_game_data` results against the same collaborators: the string
form is normalized to raw bytes before the bridge lookup. -/
theorem get_game_data_hex_bytes_agree (o : GameOracles) (s : String) (b : List Nat)
    (p : String) (h : bytes_fromhex s = .ok b) :
    get_game_data o (.str s) p = get_game_data o (.bytes b) p := by
  simp only [get_game_data, normalize_withdrawal_hash, h]

/-- Witness for C6: the hex string `"ab"` decodes to the byte `171` and both
argument forms give the same aggregate over `sampleOracles`. -/
theorem get_game_data_hex_bytes_agree_witness :
    bytes_fromhex "ab" = .ok [171] ∧
    get_game_data sampleOracles (.str "ab") "0xProver1" =
      get_game_data sampleOracles (.bytes [171]) "0xProver1" :=
  ⟨rfl, get_game_data_hex_bytes_agree sampleOracles "ab" [171] "0xProver1" rfl⟩

/-- C8: two `get_game_data` runs for the same withdrawal hash and prover,
against collaborators that agree on everything except the op-node endpoint
(differing node availability), produce identical results once the best-effort
output-root field is projected away — so over fully unchanged collaborators
the results are identical, and any difference is confined to the output-root
field's contents. -/
theorem get_game_data_deterministic_modulo_output (o : GameOracles)
    (post2 : String → HttpResponse) (h : WithdrawalHashArg) (p : String) :
    (get_game_data { o with post := post2 } h p).map erase_output =
      (get_game_data o h p).map erase_output := by
  unfold get_game_data
  cases hn : normalize_withdrawal_hash h with
  | error e => simp [hn]
  | ok wh =>
    cases hp : o.provenWithdrawals wh p with
    | error e => simp [hn, hp]
    | ok gt =>
      obtain ⟨g, t⟩ := gt
      cases hg : o.get_fault_dispute_game g with
      | error e => simp [hn, hp, hg]
      | ok u =>
        cases hl : o.l2BlockNumber g with
        | error e => simp [hn, hp, hg, hl]
        | ok n =>
          cases hr : o.rootClaim g with
          | error e => simp [hn, hp, hg, hl, hr]
          | ok rc =>
            cases hs2 : o.sentMessages wh with
            | error e => simp [hn, hp, hg, hl, hr, hs2]
            | ok sm => simp [hn, hp, hg, hl, hr, hs2, erase_output, Except.map]

/-- C9: a withdrawal hash passed as a hex string carrying the `0x` prefix is
rejected by the `bytes.fromhex` normalization (the character `x` is not a hex
digit), so the call raises the decode error — for every set of collaborators
alike, i.e. before any chain read is issued. -/
theorem get_game_data_rejects_hex_with_0x (o : GameOracles) (p : String)
    (s : String) (cs : List Char) (hpre : s.data = '0' :: 'x' :: cs) :
    get_game_data o (.str s) p =
      .error "ValueError: non-hexadecimal number found in fromhex() arg" := by
  have hx : hexDigitVal 'x' = none := by decide
  have h0 : hexDigitVal '0' = some 0 := by decide
  have hdec : bytes_fromhex s =
      .error "ValueError: non-hexadecimal number found in fromhex() arg" := by
    unfold bytes_fromhex
    rw [hpre]
    simp only [bytes_fromhex_chars, hx, h0]
  simp only [get_game_data, normalize_withdrawal_hash, hdec]

/-- Witness for C9: the `0x`-prefixed string `"0xab"` makes the call raise. -/
theorem get_game_data_rejects_hex_with_0x_witness :
    get_game_data sampleOracles (.str "0xab") "0xProver1" =
      .error "ValueError: non-hexadecimal number found in fromhex() arg" :=
  get_game_data_rejects_hex_with_0x sampleOracles "0xProver1" "0xab" ['a', 'b'] (by decide)

/-- C7: the output-root adapter returns `result.outputRoot` exactly on an
HTTP 200 response carrying that field; it raises on every response whose
status is not 200 (hence on every non-2xx status), and whatever it returns
came verbatim from the response — it never substitutes a value. -/
theorem optimism_output_at_block_strict (post : String → HttpResponse) (n : Nat) :
    (∀ v, (post (block_number_hex n)).status_code = 200 →
      (post (block_number_hex n)).result_outputRoot = some v →
      optimism_output_at_block post n = .ok v) ∧
    ((post (block_number_hex n)).status_code ≠ 200 →
      optimism_output_at_block post n =
        .error ("Error: " ++ toString (post (block_number_hex n)).status_code ++ " - " ++
          (post (block_number_hex n)).text)) ∧
    (¬ (200 ≤ (post (block_number_hex n)).status_code ∧
        (post (block_number_hex n)).status_code < 300) →
      ∃ e, optimism_output_at_block post n = .error e) ∧
    (∀ v, optimism_output_at_block post n = .ok v →
      (post (block_number_hex n)).status_code = 200 ∧
      (post (block_number_hex n)).result_outputRoot = some v) := by
  refine ⟨?_, ?_, ?_, ?_⟩
  · intro v h200 hres
    simp only [optimism_output_at_block]
    rw [if_pos h200, hres]
  · intro hne
    simp only [optimism_output_at_block]
    rw [if_neg hne]
  · intro h23
    have hne : (post (block_number_hex n)).status_code ≠ 200 := by omega
    refine ⟨"Error: " ++ toString (post (block_number_hex n)).status_code ++ " - " ++
      (post (block_number_hex n)).text, ?_⟩
    simp only [optimism_output_at_block]
    rw [if_neg hne]
  · intro v h
    by_cases h200 : (post (block_number_hex n)).status_code = 200
    · cases hres : (post (block_number_hex n)).result_outputRoot with
      | some root =>
        have heq : optimism_output_at_block post n = .ok root := by
          simp only [optimism_output_at_block]
          rw [if_pos h200, hres]
        rw [heq] at h
        simp only [Except.ok.injEq] at h
        exact ⟨h200, congrArg some h⟩
      | none =>
        have heq : optimism_output_at_block post n = .error "KeyError: outputRoot" := by
          simp only [optimism_output_at_block]
          rw [if_pos h200, hres]
        rw [heq] at h
        simp at h
    · have heq : optimism_output_at_block post n =
          .error ("Error: " ++ toString (post (block_number_hex n)).status_code ++ " - " ++
            (post (block_number_hex n)).text) := by
        simp only [optimism_output_at_block]
        rw [if_neg h200]
      rw [heq] at h
      simp at h

/-- Witness for C7: a node answering HTTP 200 with output root `0xroot2`. -/
theorem optimism_output_at_block_strict_witness :
    optimism_output_at_block (fun _ => ⟨200, some "0xroot2", ""⟩) 777 = .ok "0xroot2" :=
  (optimism_output_at_block_strict (fun _ => ⟨200, some "0xroot2", ""⟩) 777).1
    "0xroot2" rfl rfl

/-- C10: `get_withdrawal_proven_extension_1` never raises: if the receipt
fetch and the log decoding both succeed it returns the decoded logs, and if
either call raises it returns `None`. -/
theorem get_withdrawal_proven_extension_1_never_raises (o : ReceiptOracles)
    (txHash : String) :
    (∀ r logs, o.get_transaction_receipt txHash = .ok r →
      o.process_receipt r = .ok logs →
      get_withdrawal_proven_extension_1 o txHash = some logs) ∧
    (∀ e, o.get_transaction_receipt txHash = .error e →
      get_withdrawal_proven_extension_1 o txHash = none) ∧
    (∀ r e, o.get_transaction_receipt txHash = .ok r →
      o.process_receipt r = .error e →
      get_withdrawal_proven_extension_1 o txHash = none) := by
  refine ⟨?_, ?_, ?_⟩
  · intro r logs h1 h2
    simp only [get_withdrawal_proven_extension_1, h1, h2]
  · intro e h1
    simp only [get_withdrawal_proven_extension_1, h1]
  · intro r e h1 h2
    simp only [get_withdrawal_proven_extension_1, h1, h2]

/-- Witness for C10: both collaborator calls succeed and the decoded log list
is returned. -/
theorem get_withdrawal_proven_extension_1_never_raises_witness :
    get_withdrawal_proven_extension_1 ⟨fun _ => .ok 7, fun _ => .ok [⟨12345, 0⟩]⟩ "0xtx" =
      some [⟨12345, 0⟩] :=
  (get_withdrawal_proven_extension_1_never_raises
      ⟨fun _ => .ok 7, fun _ => .ok [⟨12345, 0⟩]⟩ "0xtx").1 7 [⟨12345, 0⟩] rfl rfl
